import Mathlib

/-!
Shallow embedding of the schema-reconciliation and aggregation pipeline of
`src/app.py` (clinic discount dashboard).

Modelling conventions:
* A spreadsheet cell is `Cell`: a missing value (pandas `NaN`/`None`), a
  number (modelled as `Rat`), or a string.  `pd.to_numeric(errors="coerce")`
  is modelled by `Cell.toNumeric`; parsing of numeric *strings* is abstracted
  as failure (no claim below depends on which strings parse to numbers).
* A raw sheet (`pd.DataFrame`) is a `RawTable`: a header list plus rows of
  cells; a column is addressed by the first occurrence of its header name,
  a missing column reads as `Cell.null` (matching the loader, which
  synthesises all-null columns for absent canonical fields).
* Band labels and the categorical dimensions are strings in the data model;
  theorems about sorting/membership carry that wellformedness hypothesis.
-/

namespace Clinic

/-- One spreadsheet cell: missing (`NaN`/`None`), numeric, or string. -/
inductive Cell where
  | null : Cell
  | num (q : Rat) : Cell
  | str (s : String) : Cell
deriving DecidableEq, Repr

/-- `pd.to_numeric(c, errors="coerce")` on a single cell: numbers pass
through, missing values stay missing; string parsing is abstracted as
coercion failure. -/
def Cell.toNumeric : Cell → Option Rat
  | .num q => some q
  | _ => none

/-- `Series.notna` on one cell. -/
def Cell.notna : Cell → Bool
  | .null => false
  | _ => true

/-- The string payload of a cell, if any (used for `dropna` over the
string-valued categorical columns). -/
def Cell.asStr : Cell → Option String
  | .str s => some s
  | _ => none

/-- `Series.isin(vals)` on one cell, for a list of accepted string values
(the multiselect options are strings): a null cell never matches, a numeric
cell never equals a string. -/
def Cell.isin (c : Cell) (vals : List String) : Bool :=
  match c with
  | .str s => vals.contains s
  | _ => false

/-- A raw sheet: header strings plus rows of cells
(`app.py` line 32: one `df` of `sheets_dict`). -/
structure RawTable where
  headers : List String
  rows : List (List Cell)
deriving DecidableEq, Repr

/-- One row of the normalized collection. `dicount` is kept as a `Cell`
because the source first writes the coerced column back
(`df["dicount"] = pd.to_numeric(...)`, line 91) and only then drops the
rows where it is null (line 92). -/
structure DiscountRecord where
  insurer : String
  chi_location : Cell
  service_type : Cell
  dicount : Cell
  discount_band : Cell
deriving DecidableEq, Repr

/-- Strip whitespace from both ends of a character list (`str.strip()`). -/
def trimChars (cs : List Char) : List Char :=
  ((cs.dropWhile Char.isWhitespace).reverse.dropWhile Char.isWhitespace).reverse

/-- Header normalization `c.strip().lower()` (line 37), implemented
structurally over the character list (headers are ASCII). -/
def normHeader (c : String) : String :=
  String.mk ((trimChars c.toList).map Char.toLower)

/-- Python substring test `k in c`. -/
def strContains (c k : String) : Bool :=
  (List.range (c.toList.length + 1)).any (fun i => k.toList.isPrefixOf (c.toList.drop i))

/-- `find_first_contains(*keywords)` (lines 40-44): the first header that
contains every keyword as a substring. -/
def find_first_contains (cols : List String) (keywords : List String) : Option String :=
  cols.find? (fun c => keywords.all (fun k => strContains c k))

/-- The raw header adopted for `chi_location` (line 49); Python's
`a or b` on the two searches is `Option.orElse` (a found header is never
the empty string, so truthiness coincides with `isSome`). -/
def chi_loc_col (cols : List String) : Option String :=
  (find_first_contains cols ["chilocation"]).orElse
    (fun _ => find_first_contains cols ["chi", "location"])

/-- The raw header adopted for `service_type` (line 54). -/
def svc_col (cols : List String) : Option String :=
  (find_first_contains cols ["servicetype"]).orElse
    (fun _ => find_first_contains cols ["service", "type"])

/-- The raw header adopted for the discount column (lines 59-65): exact
`"dicount"`, else exact `"discount"`, else first header containing
`"disc"`. -/
def disc_col (cols : List String) : Option String :=
  if cols.contains "dicount" then some "dicount"
  else if cols.contains "discount" then some "discount"
  else find_first_contains cols ["disc"]

/-- The raw header adopted for `discount_band` (line 70). -/
def band_col (cols : List String) : Option String :=
  find_first_contains cols ["discount", "band"]

/-- The `col_map` dict (lines 46-72) as an insertion-ordered association
list; a later insertion for the same key overrides an earlier one, so
lookups take the *last* matching entry (`lookupLast`). -/
def col_map (cols : List String) : List (String × String) :=
  (match chi_loc_col cols with | some c => [(c, "chi_location")] | none => []) ++
  (match svc_col cols with | some c => [(c, "service_type")] | none => []) ++
  (match disc_col cols with | some c => [(c, "dicount")] | none => []) ++
  (match band_col cols with | some c => [(c, "discount_band")] | none => [])

/-- Python-dict lookup on an insertion-ordered association list: the last
binding for the key wins. -/
def lookupLast (m : List (String × String)) (k : String) : Option String :=
  ((m.filter (fun p => p.1 == k)).getLast?).map Prod.snd

/-- `df.rename(columns=col_map)` on one header (line 75): headers outside
the map are unchanged. -/
def renameHeader (cols : List String) (h : String) : String :=
  (lookupLast (col_map cols) h).getD h

/-- The full header list after renaming (line 75). -/
def renamedCols (cols : List String) : List String :=
  cols.map (renameHeader cols)

/-- Read the cell of column `name` from a row, given the table's header
list: first occurrence of the header wins; an absent column reads null
(the loader synthesises all-null columns for the absent canonical fields,
lines 82-84, and keeps only the four canonical columns, lines 87-88). -/
def cellAt (cols : List String) (row : List Cell) (name : String) : Cell :=
  match cols.indexOf? name with
  | some i => row.getD i Cell.null
  | none => Cell.null

/-- `pd.to_numeric(errors="coerce")` on one cell, kept as a cell: failures
become null (line 91). -/
def coerceNumeric (c : Cell) : Cell :=
  match c.toNumeric with
  | some q => Cell.num q
  | none => Cell.null

/-- Loading of a single sheet (lines 32-97). `none` means the sheet was
skipped (empty, or no recognizable discount column after renaming);
`some records` means the sheet was kept, its rows coerced, the
coercion failures dropped (line 92) and every surviving row stamped with
the sheet name as `insurer` (line 95). -/
def loadTable (sheet_name : String) (t : RawTable) : Option (List DiscountRecord) :=
  if t.rows.isEmpty || t.headers.isEmpty then none
  else
    let cols := t.headers.map normHeader
    let rcols := renamedCols cols
    if rcols.contains "dicount" then
      some ((t.rows.map (fun row =>
        { insurer := sheet_name
          chi_location := cellAt rcols row "chi_location"
          service_type := cellAt rcols row "service_type"
          dicount := coerceNumeric (cellAt rcols row "dicount")
          discount_band := cellAt rcols row "discount_band" })).filter
        (fun r => r.dicount.notna))
    else none

/-- `load_data` (lines 20-102): fold over the bundle in iteration order,
collecting the kept sheets into `all_dfs`, then concatenate; an empty
`all_dfs` yields the empty collection (lines 99-100) rather than an error. -/
def load_data (bundle : List (String × RawTable)) : List DiscountRecord :=
  let all_dfs := bundle.foldl (fun acc p =>
    match loadTable p.1 p.2 with
    | some df => acc ++ [df]
    | none => acc) []
  if all_dfs.isEmpty then [] else all_dfs.flatten

/-- `df[df["insurer"] == selected_insurer]` (line 129). -/
def df_ins (df : List DiscountRecord) (selected_insurer : String) : List DiscountRecord :=
  df.filter (fun r => r.insurer == selected_insurer)

/-- Lexicographic comparison of character lists by code point, with a
proper prefix ordered first — Python's string order. -/
def charListLe : List Char → List Char → Bool
  | [], _ => true
  | _ :: _, [] => false
  | a :: as, b :: bs =>
    if a.toNat < b.toNat then true
    else if b.toNat < a.toNat then false
    else charListLe as bs

/-- Python's `s1 <= s2` on strings: lexicographic by code point. -/
def strLe (a b : String) : Bool :=
  charListLe a.toList b.toList

/-- Ascending sort by lexicographic string order, modelling Python
`sorted` on string labels. -/
def sortStrings (xs : List String) : List String :=
  List.insertionSort (fun a b => strLe a b = true) xs

/-- `Series.unique()`: distinct values in first-occurrence order. -/
def uniqueStrs (xs : List String) : List String :=
  xs.foldl (fun acc x => if acc.contains x then acc else acc ++ [x]) []

/-- `sorted(d["chi_location"].dropna().unique())` (line 132): the
multiselect options for the location dimension (string values). -/
def chi_loc_options (d : List DiscountRecord) : List String :=
  sortStrings (uniqueStrs (d.filterMap (fun r => r.chi_location.asStr)))

/-- `sorted(d["service_type"].dropna().unique())` (line 140). -/
def service_options (d : List DiscountRecord) : List String :=
  sortStrings (uniqueStrs (d.filterMap (fun r => r.service_type.asStr)))

/-- The sidebar filter (lines 129, 148-152): restrict to the selected
insurer, then apply each `isin` restriction only when its selection list
is non-empty (Python truthiness of the list). -/
def filtered (df : List DiscountRecord) (selected_insurer : String)
    (selected_chi_locs selected_services : List String) : List DiscountRecord :=
  let f := df_ins df selected_insurer
  let f := if selected_chi_locs.isEmpty then f
    else f.filter (fun r => r.chi_location.isin selected_chi_locs)
  if selected_services.isEmpty then f
  else f.filter (fun r => r.service_type.isin selected_services)

/-- Mean of a numeric column (`Series.mean()`): null cells are skipped
(`skipna`), the empty mean is unavailable (`NaN`). -/
def colMean (cells : List Cell) : Option Rat :=
  let vals := cells.filterMap Cell.toNumeric
  if vals.isEmpty then none else some (vals.sum / vals.length)

/-- `filtered["dicount"].mean()` (line 166). -/
def avg_discount (df : List DiscountRecord) : Option Rat :=
  colMean (df.map (fun r => r.dicount))

/-- The numeric discount values of a collection, used to state the
arithmetic-mean conclusions explicitly. -/
def dicountVals (df : List DiscountRecord) : List Rat :=
  df.filterMap (fun r => r.dicount.toNumeric)

/-- The distinct non-null band labels,
`filtered["discount_band"].dropna().unique()` (line 173); band labels are
strings in the data model. -/
def dropna_unique_bands (df : List DiscountRecord) : List String :=
  uniqueStrs (df.filterMap (fun r => r.discount_band.asStr))

/-- `sorted(filtered["discount_band"].dropna().unique())[-1]` (line 173):
the last element of the ascending sort; `none` when there is no (string)
band label, in which case the KPI shows "N/A" (line 181). -/
def top_band (df : List DiscountRecord) : Option String :=
  (sortStrings (dropna_unique_bands df)).getLast?

/-- `filtered[filtered["discount_band"] == top_band]` (line 174). -/
def top_band_df (df : List DiscountRecord) (b : String) : List DiscountRecord :=
  df.filter (fun r => r.discount_band == Cell.str b)

/-- The top-band KPI (lines 171-181): the mean discount over the records
of the lexicographically last band; unavailable when no band exists. -/
def top_band_avg (df : List DiscountRecord) : Option Rat :=
  match top_band df with
  | some b => colMean ((top_band_df df b).map (fun r => r.dicount))
  | none => none

/-- `filtered["discount_band"].value_counts().sort_index()` (lines
187-193): one `(band, count)` row per distinct non-null band, ascending by
band label. -/
def chart_data (df : List DiscountRecord) : List (String × Nat) :=
  (sortStrings (dropna_unique_bands df)).map (fun b => (b, (top_band_df df b).length))

/-- The band histogram with its synthetic total row (lines 186-209):
`none` models the "no band data" branch (line 211), taken when no record
has a non-null band. -/
def chart_with_total (df : List DiscountRecord) : Option (List (String × Nat)) :=
  if (df.map (fun r => r.discount_band)).any Cell.notna then
    some (chart_data df ++ [("Total", ((chart_data df).map Prod.snd).sum)])
  else none

/-- The canonical column names of the normalized schema. -/
def canonicalHeaders : List String :=
  ["chi_location", "service_type", "dicount", "discount_band"]

/-- Example sheet: a single numeric discount column. -/
def tabOne : RawTable :=
  { headers := ["Discount"], rows := [[Cell.num 1]] }

/-- The record produced by loading `tabOne` under a given sheet name. -/
def recOne (n : String) : DiscountRecord :=
  { insurer := n, chi_location := Cell.null, service_type := Cell.null,
    dicount := Cell.num 1, discount_band := Cell.null }

/-- Example collection with bands `A`, `B`, `C` and discounts 0.1, 0.2, 0.3
(the top-band scenario from the specification). -/
def exBands : List DiscountRecord :=
  [{ insurer := "I", chi_location := Cell.null, service_type := Cell.null,
     dicount := Cell.num (1/10), discount_band := Cell.str "A" },
   { insurer := "I", chi_location := Cell.null, service_type := Cell.null,
     dicount := Cell.num (2/10), discount_band := Cell.str "B" },
   { insurer := "I", chi_location := Cell.null, service_type := Cell.null,
     dicount := Cell.num (3/10), discount_band := Cell.str "C" }]

/-- Example collection for insurer `A` with one null `chi_location`. -/
def exNull : List DiscountRecord :=
  [{ insurer := "A", chi_location := Cell.str "X", service_type := Cell.null,
     dicount := Cell.num 1, discount_band := Cell.null },
   { insurer := "A", chi_location := Cell.null, service_type := Cell.null,
     dicount := Cell.num 2, discount_band := Cell.null }]

/-- Example sheet with no discount-like column at all. -/
def tabNoDisc : RawTable :=
  { headers := ["Name"], rows := [[Cell.str "x"]] }

/-- Example sheet whose sole header is matched by the discount fallback and
by the band rule. -/
def tabBand : RawTable :=
  { headers := ["Discount Band"], rows := [[Cell.str "x"]] }

/-- Example sheet where an exact "discount" header coexists with an earlier
header containing "disc" as a substring. -/
def tabExact : RawTable :=
  { headers := ["My Disc Rate", "Discount"], rows := [[Cell.num 1, Cell.num 2]] }

/-! ### Basic lemmas about the embedded operations -/

theorem getLast?_eq_some_mem {α : Type} {l : List α} {a : α}
    (h : l.getLast? = some a) : a ∈ l := by
  induction l with
  | nil => simp at h
  | cons x xs ih =>
    cases xs with
    | nil => simp_all
    | cons y ys =>
      rw [List.getLast?_cons_cons] at h
      exact List.mem_cons_of_mem x (ih h)

theorem charListLe_refl : ∀ (as : List Char), charListLe as as = true := by
  intro as
  induction as with
  | nil => rfl
  | cons a as ih => simp [charListLe, ih]

theorem charListLe_trans : ∀ {as bs cs : List Char},
    charListLe as bs = true → charListLe bs cs = true → charListLe as cs = true := by
  intro as
  induction as with
  | nil => intro bs cs _ _; rfl
  | cons a as ih =>
    intro bs cs h1 h2
    cases bs with
    | nil => simp [charListLe] at h1
    | cons b bs =>
      cases cs with
      | nil => simp [charListLe] at h2
      | cons c cs =>
        simp only [charListLe] at h1 h2 ⊢
        rcases Nat.lt_trichotomy a.toNat b.toNat with hab | hab | hab <;>
          rcases Nat.lt_trichotomy b.toNat c.toNat with hbc | hbc | hbc <;>
          simp_all [Nat.lt_asymm, Nat.lt_irrefl] <;>
          first
          | exact absurd (Nat.lt_trans hab hbc) (by omega)
          | simp [Nat.lt_trans hab hbc]
          | omega
          | exact ih h1 h2

theorem charListLe_total : ∀ (as bs : List Char),
    charListLe as bs = true ∨ charListLe bs as = true := by
  intro as
  induction as with
  | nil => intro bs; left; rfl
  | cons a as ih =>
    intro bs
    cases bs with
    | nil => right; rfl
    | cons b bs =>
      rcases Nat.lt_trichotomy a.toNat b.toNat with h | h | h
      · left; simp [charListLe, h]
      · rcases ih bs with h2 | h2
        · left; simp [charListLe, h, h2]
        · right; simp [charListLe, h, h2]
      · right; simp [charListLe, h]

theorem strLe_refl (a : String) : strLe a a = true :=
  charListLe_refl _

instance : IsTotal String (fun a b => strLe a b = true) :=
  ⟨fun a b => charListLe_total a.toList b.toList⟩

instance : IsTrans String (fun a b => strLe a b = true) :=
  ⟨fun _ _ _ h1 h2 => charListLe_trans h1 h2⟩

theorem sortStrings_perm (xs : List String) : (sortStrings xs).Perm xs :=
  List.perm_insertionSort _ xs

theorem sortStrings_sorted (xs : List String) :
    (sortStrings xs).Sorted (fun a b => strLe a b = true) :=
  List.sorted_insertionSort _ xs

theorem sorted_strLe_getLast : ∀ {l : List String}
    (hs : l.Sorted (fun a b => strLe a b = true)) (hne : l ≠ []) {x : String},
    x ∈ l → strLe x (l.getLast hne) = true := by
  intro l
  induction l with
  | nil => intro _ hne; exact absurd rfl hne
  | cons a l ih =>
    intro hs hne x hx
    cases l with
    | nil =>
      rcases List.mem_singleton.mp hx with rfl
      exact strLe_refl x
    | cons b l =>
      rw [List.getLast_cons (by simp)]
      rcases List.mem_cons.mp hx with rfl | hx2
      · exact (List.sorted_cons.mp hs).1 _ (List.getLast_mem _)
      · exact ih (List.sorted_cons.mp hs).2 (by simp) hx2

theorem getLast?_sortStrings_max (xs : List String) (hne : xs ≠ []) :
    ∃ m, (sortStrings xs).getLast? = some m ∧ m ∈ xs ∧
      ∀ x ∈ xs, strLe x m = true := by
  have hperm := sortStrings_perm xs
  have hne2 : sortStrings xs ≠ [] := by
    intro h0
    exact hne (List.eq_nil_of_length_eq_zero (by
      have := hperm.length_eq
      simp [h0] at this
      omega))
  refine ⟨(sortStrings xs).getLast hne2, List.getLast?_eq_getLast _ hne2, ?_, ?_⟩
  · exact hperm.mem_iff.mp (List.getLast_mem hne2)
  · intro x hx
    exact sorted_strLe_getLast (sortStrings_sorted xs) hne2 (hperm.mem_iff.mpr hx)

theorem mem_uniqueStrs_aux (xs : List String) : ∀ (acc : List String) (a : String),
    (a ∈ xs.foldl (fun acc x => if acc.contains x then acc else acc ++ [x]) acc) ↔
      (a ∈ acc ∨ a ∈ xs) := by
  induction xs with
  | nil => simp
  | cons x xs ih =>
    intro acc a
    simp only [List.foldl_cons]
    by_cases hc : acc.contains x
    · rw [if_pos hc, ih]
      have hx : x ∈ acc := by simpa using hc
      constructor
      · rintro (h | h) <;> simp_all
      · rintro (h | h)
        · exact Or.inl h
        · rcases List.mem_cons.mp h with rfl | h2
          · exact Or.inl hx
          · exact Or.inr h2
    · rw [if_neg hc, ih]
      simp only [List.mem_append, List.mem_singleton, List.mem_cons]
      tauto

theorem mem_uniqueStrs {xs : List String} {a : String} :
    a ∈ uniqueStrs xs ↔ a ∈ xs := by
  rw [uniqueStrs, mem_uniqueStrs_aux]
  simp

theorem nodup_uniqueStrs_aux (xs : List String) : ∀ (acc : List String),
    acc.Nodup → (xs.foldl (fun acc x => if acc.contains x then acc else acc ++ [x]) acc).Nodup := by
  induction xs with
  | nil => intro acc h; simpa using h
  | cons x xs ih =>
    intro acc hacc
    simp only [List.foldl_cons]
    by_cases hc : acc.contains x
    · rw [if_pos hc]; exact ih acc hacc
    · rw [if_neg hc]
      refine ih _ ?_
      have hx : x ∉ acc := by simpa using hc
      simpa [List.nodup_append] using ⟨hacc, hx⟩

theorem nodup_uniqueStrs (xs : List String) : (uniqueStrs xs).Nodup :=
  nodup_uniqueStrs_aux xs [] List.nodup_nil

theorem load_data_foldl (bundle : List (String × RawTable)) :
    ∀ (acc : List (List DiscountRecord)),
      bundle.foldl (fun acc p =>
        match loadTable p.1 p.2 with
        | some df => acc ++ [df]
        | none => acc) acc =
      acc ++ bundle.filterMap (fun p => loadTable p.1 p.2) := by
  induction bundle with
  | nil => simp
  | cons p bundle ih =>
    intro acc
    simp only [List.foldl_cons, List.filterMap_cons]
    cases h : loadTable p.1 p.2 with
    | none => simp [h, ih]
    | some df => simp [h, ih]

theorem load_data_eq (bundle : List (String × RawTable)) :
    load_data bundle = (bundle.filterMap (fun p => loadTable p.1 p.2)).flatten := by
  rw [load_data]
  rw [load_data_foldl bundle []]
  simp only [List.nil_append]
  by_cases h : (bundle.filterMap (fun p => loadTable p.1 p.2)).isEmpty
  · rw [if_pos h]
    rw [List.isEmpty_iff] at h
    simp [h]
  · rw [if_neg h]

theorem mem_load_data {bundle : List (String × RawTable)} {r : DiscountRecord} :
    r ∈ load_data bundle ↔
      ∃ p ∈ bundle, ∃ df, loadTable p.1 p.2 = some df ∧ r ∈ df := by
  rw [load_data_eq, List.mem_flatten]
  constructor
  · rintro ⟨df, hdf, hr⟩
    rcases List.mem_filterMap.mp hdf with ⟨p, hp, hload⟩
    exact ⟨p, hp, df, hload, hr⟩
  · rintro ⟨p, hp, df, hload, hr⟩
    exact ⟨df, List.mem_filterMap.mpr ⟨p, hp, hload⟩, hr⟩

theorem mem_of_loadTable {n : String} {t : RawTable} {df : List DiscountRecord}
    (h : loadTable n t = some df) {r : DiscountRecord} (hr : r ∈ df) :
    r.insurer = n ∧ ∃ q, r.dicount = Cell.num q := by
  rw [loadTable] at h
  by_cases he : (t.rows.isEmpty || t.headers.isEmpty) = true
  · rw [if_pos he] at h; exact absurd h (by simp)
  · rw [if_neg he] at h
    by_cases hd : (renamedCols (t.headers.map normHeader)).contains "dicount"
    · rw [if_pos hd] at h
      have hdf := (Option.some.injEq _ _).mp h
      subst hdf
      rcases List.mem_filter.mp hr with ⟨hmem, hnotna⟩
      rcases List.mem_map.mp hmem with ⟨row, _, hrec⟩
      subst hrec
      refine ⟨rfl, ?_⟩
      simp only at hnotna ⊢
      cases hq : (cellAt (renamedCols (t.headers.map normHeader)) row "dicount").toNumeric with
      | none => simp [coerceNumeric, hq, Cell.notna] at hnotna
      | some q => exact ⟨q, by simp [coerceNumeric, hq]⟩
    · rw [if_neg hd] at h; exact absurd h (by simp)

theorem find?_eq_some_first {α : Type} {p : α → Bool} :
    ∀ {l : List α} {c : α}, l.find? p = some c ↔
      p c = true ∧ ∃ l1 l2, l = l1 ++ c :: l2 ∧ ∀ x ∈ l1, p x = false := by
  intro l
  induction l with
  | nil => simp
  | cons a l ih =>
    intro c
    by_cases ha : p a
    · rw [List.find?_cons_of_pos _ ha]
      constructor
      · rintro h
        rcases (Option.some.injEq _ _).mp h with rfl
        exact ⟨ha, [], l, rfl, by simp⟩
      · rintro ⟨hc, l1, l2, heq, hfirst⟩
        cases l1 with
        | nil => simp at heq; simp [heq.1]
        | cons y l1 =>
          have hy : y ∈ y :: l1 := List.mem_cons_self _ _
          have : a = y := by simpa using congrArg (fun xs => xs.head?) heq
          exact absurd ha (by simp [this, hfirst y hy])
    · rw [List.find?_cons_of_neg _ ha, ih]
      constructor
      · rintro ⟨hc, l1, l2, heq, hfirst⟩
        refine ⟨hc, a :: l1, l2, by simp [heq], ?_⟩
        intro x hx
        rcases List.mem_cons.mp hx with rfl | hx2
        · simpa using ha
        · exact hfirst x hx2
      · rintro ⟨hc, l1, l2, heq, hfirst⟩
        cases l1 with
        | nil =>
          simp at heq
          exact absurd (heq.1 ▸ hc) (by simpa using ha)
        | cons y l1 =>
          have hay : a = y ∧ l = l1 ++ c :: l2 := by
            constructor
            · simpa using congrArg (fun xs => xs.head?) heq
            · simpa using congrArg List.tail heq
          exact ⟨hc, l1, l2, hay.2, fun x hx => hfirst x (hay.1 ▸ List.mem_cons_of_mem _ hx)⟩

theorem mem_col_map {cols : List String} {k v : String} (h : (k, v) ∈ col_map cols) :
    (v = "chi_location" ∧ chi_loc_col cols = some k) ∨
    (v = "service_type" ∧ svc_col cols = some k) ∨
    (v = "dicount" ∧ disc_col cols = some k) ∨
    (v = "discount_band" ∧ band_col cols = some k) := by
  rw [col_map] at h
  cases hc : chi_loc_col cols <;> cases hsv : svc_col cols <;>
    cases hd : disc_col cols <;> cases hb : band_col cols <;>
    rw [hc, hsv, hd, hb] at h <;> simp_all [Prod.ext_iff] <;> tauto

theorem lookupLast_eq_some {m : List (String × String)} {k v : String}
    (h : lookupLast m k = some v) : (k, v) ∈ m := by
  rw [lookupLast] at h
  cases hg : (m.filter (fun p => p.1 == k)).getLast? with
  | none => exact absurd h (by rw [hg]; simp)
  | some p =>
    have hv2 : p.2 = v := by rw [hg] at h; simpa using h
    have hp := getLast?_eq_some_mem hg
    rcases List.mem_filter.mp hp with ⟨hm, hk⟩
    have hk2 : p.1 = k := by simpa using hk
    have hpv : (k, v) = p := by rw [← hk2, ← hv2]
    rwa [hpv]

theorem lookupLast_append_single (m : List (String × String)) (k v : String) :
    lookupLast (m ++ [(k, v)]) k = some v := by
  rw [lookupLast, List.filter_append]
  simp [List.getLast?_concat]

theorem strContains_iff {c k : String} : strContains c k = true ↔
    ∃ i, i < c.toList.length + 1 ∧ k.toList.isPrefixOf (c.toList.drop i) = true := by
  simp [strContains, List.any_eq_true, List.mem_range]

theorem strContains_mono {c k k2 : String}
    (hpre : k2.toList.isPrefixOf k.toList = true) (h : strContains c k = true) :
    strContains c k2 = true := by
  rcases strContains_iff.mp h with ⟨i, hi, hp⟩
  refine strContains_iff.mpr ⟨i, hi, ?_⟩
  rw [List.isPrefixOf_iff_prefix] at hpre hp ⊢
  exact hpre.trans hp

theorem no_dicount_renamed {cols : List String}
    (h1 : "dicount" ∉ cols) (hd : disc_col cols = none) :
    "dicount" ∉ renamedCols cols := by
  intro hmem
  rcases List.mem_map.mp hmem with ⟨h, hh, heq⟩
  rw [renameHeader] at heq
  cases hl : lookupLast (col_map cols) h with
  | none => rw [hl] at heq; simp at heq; exact h1 (heq ▸ hh)
  | some v =>
    rw [hl] at heq
    simp only [Option.getD_some] at heq
    subst heq
    rcases mem_col_map (lookupLast_eq_some hl) with
      ⟨hv, _⟩ | ⟨hv, _⟩ | ⟨hv, hdc⟩ | ⟨hv, _⟩
    · exact absurd hv (by decide)
    · exact absurd hv (by decide)
    · rw [hd] at hdc; exact absurd hdc (by simp)
    · exact absurd hv (by decide)

theorem loadTable_none_of_no_dicount {n : String} {t : RawTable}
    (h : "dicount" ∉ renamedCols (t.headers.map normHeader)) : loadTable n t = none := by
  rw [loadTable]
  by_cases he : (t.rows.isEmpty || t.headers.isEmpty) = true
  · rw [if_pos he]
  · rw [if_neg he, if_neg (by simpa using h)]

theorem isin_iff {c : Cell} {vals : List String} :
    c.isin vals = true ↔ ∃ s, c = Cell.str s ∧ s ∈ vals := by
  cases c <;> simp [Cell.isin]

theorem mem_filtered {df : List DiscountRecord} {ins : String}
    {chis svcs : List String} {r : DiscountRecord} :
    r ∈ filtered df ins chis svcs ↔
      r ∈ df ∧ r.insurer = ins ∧
      (chis = [] ∨ ∃ s, r.chi_location = Cell.str s ∧ s ∈ chis) ∧
      (svcs = [] ∨ ∃ s, r.service_type = Cell.str s ∧ s ∈ svcs) := by
  by_cases hc : chis.isEmpty <;> by_cases hsv : svcs.isEmpty <;>
    rw [List.isEmpty_iff] at * <;>
    simp only [filtered, df_ins, hc, hsv, if_pos, if_neg, List.isEmpty_nil,
      reduceIte, List.isEmpty_iff, List.mem_filter, isin_iff, beq_iff_eq] <;>
    simp_all <;> tauto

theorem count_labels (df : List DiscountRecord) (b : String) :
    (top_band_df df b).length =
      (df.filterMap (fun r => r.discount_band.asStr)).count b := by
  induction df with
  | nil => simp [top_band_df]
  | cons r df ih =>
    rw [top_band_df] at ih ⊢
    cases hband : r.discount_band with
    | null => simp [List.filter_cons, hband, Cell.asStr, ih]
    | num q => simp [List.filter_cons, hband, Cell.asStr, ih]
    | str s =>
      by_cases hs : s = b
      · subst hs
        simp [List.filter_cons, hband, Cell.asStr, ih, List.count_cons]
      · simp [List.filter_cons, hband, Cell.asStr, ih, List.count_cons, hs, Ne.symm hs]

theorem length_filter_notna {df : List DiscountRecord}
    (hWF : ∀ r ∈ df, r.discount_band = Cell.null ∨ ∃ s, r.discount_band = Cell.str s) :
    (df.filter (fun r => r.discount_band.notna)).length =
      (df.filterMap (fun r => r.discount_band.asStr)).length := by
  induction df with
  | nil => simp
  | cons r df ih =>
    have hr := hWF r (List.mem_cons_self _ _)
    have htail := ih (fun x hx => hWF x (List.mem_cons_of_mem _ hx))
    rcases hr with hnull | ⟨s, hstr⟩
    · rw [List.filter_cons, List.filterMap_cons, hnull]
      simpa [show Cell.null.notna = false from rfl,
        show Cell.null.asStr = none from rfl] using htail
    · rw [List.filter_cons, List.filterMap_cons, hstr]
      simpa [show (Cell.str s).notna = true from rfl,
        show (Cell.str s).asStr = some s from rfl] using htail

theorem sum_counts {u xs : List String} (hu : u.Nodup)
    (hm : ∀ a, a ∈ u ↔ a ∈ xs) :
    (u.map (fun b => xs.count b)).sum = xs.length := by
  have h1 : (u.map (fun b => xs.count b)).sum = u.toFinset.sum (fun b => xs.count b) :=
    (List.sum_toFinset _ hu).symm
  have h2 : u.toFinset = xs.dedup.toFinset := by
    ext a
    simp [List.mem_toFinset, hm, List.mem_dedup]
  have h3 : xs.dedup.toFinset.sum (fun b => xs.count b) =
      (xs.dedup.map (fun b => xs.count b)).sum :=
    List.sum_toFinset _ (List.nodup_dedup xs)
  rw [h1, h2, h3]
  exact List.sum_map_count_dedup_eq_length xs

theorem mem_dropna_unique_bands {df : List DiscountRecord} {b : String} :
    b ∈ dropna_unique_bands df ↔ ∃ r ∈ df, r.discount_band = Cell.str b := by
  rw [dropna_unique_bands, mem_uniqueStrs, List.mem_filterMap]
  constructor
  · rintro ⟨r, hr, hb⟩
    cases hband : r.discount_band <;> rw [hband] at hb <;> simp [Cell.asStr] at hb
    exact ⟨r, hr, by rw [hband, hb]⟩
  · rintro ⟨r, hr, hb⟩
    exact ⟨r, hr, by rw [hb]; rfl⟩

theorem mem_chi_loc_options {d : List DiscountRecord} {s : String} :
    s ∈ chi_loc_options d ↔ ∃ r ∈ d, r.chi_location = Cell.str s := by
  rw [chi_loc_options, (sortStrings_perm _).mem_iff, mem_uniqueStrs, List.mem_filterMap]
  constructor
  · rintro ⟨r, hr, hb⟩
    cases hband : r.chi_location <;> rw [hband] at hb <;> simp [Cell.asStr] at hb
    exact ⟨r, hr, by rw [hband, hb]⟩
  · rintro ⟨r, hr, hb⟩
    exact ⟨r, hr, by rw [hb]; rfl⟩

theorem mem_service_options {d : List DiscountRecord} {s : String} :
    s ∈ service_options d ↔ ∃ r ∈ d, r.service_type = Cell.str s := by
  rw [service_options, (sortStrings_perm _).mem_iff, mem_uniqueStrs, List.mem_filterMap]
  constructor
  · rintro ⟨r, hr, hb⟩
    cases hband : r.service_type <;> rw [hband] at hb <;> simp [Cell.asStr] at hb
    exact ⟨r, hr, by rw [hband, hb]⟩
  · rintro ⟨r, hr, hb⟩
    exact ⟨r, hr, by rw [hb]; rfl⟩

theorem dicountVals_length {l : List DiscountRecord}
    (hNum : ∀ r ∈ l, ∃ q, r.dicount = Cell.num q) :
    (dicountVals l).length = l.length := by
  induction l with
  | nil => rfl
  | cons r l ih =>
    rcases hNum r (List.mem_cons_self _ _) with ⟨q, hq⟩
    have htail := ih (fun x hx => hNum x (List.mem_cons_of_mem _ hx))
    simp [dicountVals, hq, Cell.toNumeric] at htail ⊢
    exact htail

theorem colMean_eq (cells : List Cell) :
    colMean cells = if (cells.filterMap Cell.toNumeric).isEmpty then none
      else some ((cells.filterMap Cell.toNumeric).sum /
        ((cells.filterMap Cell.toNumeric).length : Rat)) := rfl

/-! ### Claim theorems -/

/-- C1: every record of the collection produced by the loader carries a
non-null numeric `dicount`; a source row whose discount cell fails numeric
coercion is dropped and never appears in the output. -/
theorem C1_loaded_discount_numeric (bundle : List (String × RawTable))
    {r : DiscountRecord} (hr : r ∈ load_data bundle) :
    ∃ q : Rat, r.dicount = Cell.num q := by
  rcases mem_load_data.mp hr with ⟨p, _, df, hload, hrdf⟩
  exact (mem_of_loadTable hload hrdf).2

/-- C1 witness: a concrete one-sheet bundle whose single record has a
numeric discount. -/
theorem C1_loaded_discount_numeric_witness :
    recOne "Acme" ∈ load_data [("Acme", tabOne)] ∧
    ∃ q : Rat, (recOne "Acme").dicount = Cell.num q :=
  ⟨by decide, C1_loaded_discount_numeric [("Acme", tabOne)] (by decide)⟩

/-- C2: every surviving row of a kept table is stamped with the table's
bundle key as `insurer`, and the kept tables' record lists are concatenated
in bundle iteration order. -/
theorem C2_insurer_stamp_and_order (bundle : List (String × RawTable)) :
    load_data bundle = (bundle.filterMap (fun p => loadTable p.1 p.2)).flatten ∧
    ∀ p ∈ bundle, ∀ df, loadTable p.1 p.2 = some df → ∀ r ∈ df, r.insurer = p.1 :=
  ⟨load_data_eq bundle,
   fun p _ df hdf r hr => (mem_of_loadTable hdf hr).1⟩

/-- C2 witness: in a two-sheet bundle, each sheet's record is stamped with
its own sheet name, even though the raw data has no insurer column. -/
theorem C2_insurer_stamp_and_order_witness :
    ∀ r ∈ [recOne "A"], r.insurer = "A" :=
  (C2_insurer_stamp_and_order [("A", tabOne), ("B", tabOne)]).2
    ("A", tabOne) (by decide) [recOne "A"] (by decide)

/-- C6: the filter keeps a record iff its insurer equals the selection, and
for each of the two categorical dimensions, either the accepted set is
empty (no restriction) or the record holds one of the accepted string
values; a null cell never matches a non-empty accepted set. -/
theorem C6_filter_semantics (df : List DiscountRecord) (ins : String)
    (chis svcs : List String) (r : DiscountRecord) :
    r ∈ filtered df ins chis svcs ↔
      r ∈ df ∧ r.insurer = ins ∧
      (chis = [] ∨ ∃ s, r.chi_location = Cell.str s ∧ s ∈ chis) ∧
      (svcs = [] ∨ ∃ s, r.service_type = Cell.str s ∧ s ∈ svcs) :=
  mem_filtered

/-- C3: after trimming and lowercasing the headers, the discount column is
the exact header "dicount" if present, else the exact header "discount" if
present, else the first header in column order containing the substring
"disc", else absent; an exact-spelling match always beats any
substring-containing header. -/
theorem C3_disc_col_selection (t : RawTable) (cols : List String)
    (hcols : cols = t.headers.map normHeader) (c : String) :
    ("dicount" ∈ cols → disc_col cols = some "dicount") ∧
    ("dicount" ∉ cols → "discount" ∈ cols → disc_col cols = some "discount") ∧
    ("dicount" ∉ cols → "discount" ∉ cols →
      (disc_col cols = some c ↔
        strContains c "disc" = true ∧
        ∃ pre post, cols = pre ++ c :: post ∧ ∀ x ∈ pre, strContains x "disc" = false)) ∧
    (disc_col cols = none ↔
      "dicount" ∉ cols ∧ "discount" ∉ cols ∧
      ∀ x ∈ cols, strContains x "disc" = false) := by
  clear hcols
  have hpred : (fun x => ["disc"].all (fun k => strContains x k)) =
      (fun x => strContains x "disc") := by
    funext x
    simp
  refine ⟨?_, ?_, ?_, ?_⟩
  · intro h1
    rw [disc_col, if_pos (by simpa using h1)]
  · intro h1 h2
    rw [disc_col, if_neg (by simpa using h1), if_pos (by simpa using h2)]
  · intro h1 h2
    rw [disc_col, if_neg (by simpa using h1), if_neg (by simpa using h2),
      find_first_contains, hpred]
    exact find?_eq_some_first
  · constructor
    · intro hnone
      by_cases h1 : "dicount" ∈ cols
      · rw [disc_col, if_pos (by simpa using h1)] at hnone; simp at hnone
      · by_cases h2 : "discount" ∈ cols
        · rw [disc_col, if_neg (by simpa using h1), if_pos (by simpa using h2)] at hnone
          simp at hnone
        · refine ⟨h1, h2, ?_⟩
          rw [disc_col, if_neg (by simpa using h1), if_neg (by simpa using h2),
            find_first_contains, hpred] at hnone
          intro x hx
          simpa using List.find?_eq_none.mp hnone x hx
    · rintro ⟨h1, h2, hall⟩
      rw [disc_col, if_neg (by simpa using h1), if_neg (by simpa using h2),
        find_first_contains, hpred]
      rw [List.find?_eq_none]
      intro x hx
      simp [hall x hx]

/-- C3 witness: with headers "My Disc Rate" and "Discount", the exact
spelling wins over the earlier substring match. -/
theorem C3_disc_col_selection_witness :
    disc_col ["my disc rate", "discount"] = some "discount" :=
  (C3_disc_col_selection tabExact ["my disc rate", "discount"] (by decide)
    "discount").2.1 (by decide) (by decide)

/-- C9: a table none of whose normalized headers is matched by the discount
rules is skipped, contributing zero records while the rest of the bundle
loads; and a bundle in which no table yields a surviving row loads to the
empty collection rather than an error. -/
theorem C9_skip_and_empty (bundle : List (String × RawTable)) (n : String)
    (t : RawTable)
    (hno : "dicount" ∉ t.headers.map normHeader ∧
      "discount" ∉ t.headers.map normHeader ∧
      ∀ x ∈ t.headers.map normHeader, strContains x "disc" = false) :
    loadTable n t = none ∧
    (∀ b1 b2, load_data (b1 ++ (n, t) :: b2) = load_data (b1 ++ b2)) ∧
    ((∀ p ∈ bundle, loadTable p.1 p.2 = none ∨ loadTable p.1 p.2 = some []) →
      load_data bundle = []) := by
  have hd : disc_col (t.headers.map normHeader) = none := by
    rw [disc_col, if_neg (by simpa using hno.1), if_neg (by simpa using hno.2.1),
      find_first_contains, List.find?_eq_none]
    intro x hx
    simp [hno.2.2 x hx]
  have hskip : loadTable n t = none :=
    loadTable_none_of_no_dicount (no_dicount_renamed hno.1 hd)
  refine ⟨hskip, ?_, ?_⟩
  · intro b1 b2
    rw [load_data_eq, load_data_eq, List.filterMap_append, List.filterMap_append,
      List.filterMap_cons, hskip]
  · intro hall
    rw [load_data_eq]
    rw [List.flatten_eq_nil_iff]
    intro l hl
    rcases List.mem_filterMap.mp hl with ⟨p, hp, hload⟩
    rcases hall p hp with hnone | hempty
    · rw [hnone] at hload; exact absurd hload (by simp)
    · rw [hempty] at hload; exact ((Option.some.injEq _ _).mp hload).symm

/-- C9 witness: a one-sheet bundle whose sheet has no discount-like header
loads to the empty collection without failing. -/
theorem C9_skip_and_empty_witness :
    loadTable "S" tabNoDisc = none ∧ load_data [("S", tabNoDisc)] = [] := by
  have h := C9_skip_and_empty [("S", tabNoDisc)] "S" tabNoDisc
    (by refine ⟨by decide, by decide, by decide⟩)
  exact ⟨h.1, h.2.2 (by intro p hp; left; rcases List.mem_singleton.mp hp with rfl; exact h.1)⟩

/-- C10: when the only header matched by the discount rules is matched via
the "disc" substring fallback and that same header also contains both
"discount" and "band", the band rule's later map entry overwrites the
discount entry, the renamed table has no `dicount` column, and the table is
skipped entirely. -/
theorem C10_band_overwrites_disc (n : String) (t : RawTable) (h0 : String)
    (hnd : "dicount" ∉ t.headers.map normHeader)
    (hnd2 : "discount" ∉ t.headers.map normHeader)
    (hmem : h0 ∈ t.headers.map normHeader)
    (huniq : ∀ x ∈ t.headers.map normHeader, strContains x "disc" = true → x = h0)
    (hdisc : strContains h0 "disc" = true)
    (hdiscount : strContains h0 "discount" = true)
    (hband : strContains h0 "band" = true) :
    disc_col (t.headers.map normHeader) = some h0 ∧
    band_col (t.headers.map normHeader) = some h0 ∧
    lookupLast (col_map (t.headers.map normHeader)) h0 = some "discount_band" ∧
    "dicount" ∉ renamedCols (t.headers.map normHeader) ∧
    loadTable n t = none := by
  have hdc : disc_col (t.headers.map normHeader) = some h0 := by
    rw [disc_col, if_neg (by simpa using hnd), if_neg (by simpa using hnd2),
      find_first_contains]
    cases e : (t.headers.map normHeader).find? (fun c => ["disc"].all (fun k => strContains c k)) with
    | none =>
      have := List.find?_eq_none.mp e h0 hmem
      simp [hdisc] at this
    | some c =>
      have hc := List.find?_some e
      have hcm := List.mem_of_find?_eq_some e
      have : strContains c "disc" = true := by simpa using hc
      rw [huniq c hcm this]
  have hbc : band_col (t.headers.map normHeader) = some h0 := by
    rw [band_col, find_first_contains]
    cases e : (t.headers.map normHeader).find?
        (fun c => ["discount", "band"].all (fun k => strContains c k)) with
    | none =>
      have := List.find?_eq_none.mp e h0 hmem
      simp [hdiscount, hband] at this
    | some c =>
      have hc := List.find?_some e
      have hcm := List.mem_of_find?_eq_some e
      have hc2 : strContains c "discount" = true := by
        simp at hc
        exact hc.1
      have : strContains c "disc" = true :=
        strContains_mono (by decide) hc2
      rw [huniq c hcm this]
  have hlk : lookupLast (col_map (t.headers.map normHeader)) h0 = some "discount_band" := by
    rw [col_map, hdc, hbc]
    exact lookupLast_append_single _ h0 "discount_band"
  have hnr : "dicount" ∉ renamedCols (t.headers.map normHeader) := by
    intro hmem2
    rcases List.mem_map.mp hmem2 with ⟨h, hh, heq⟩
    rw [renameHeader] at heq
    cases hl : lookupLast (col_map (t.headers.map normHeader)) h with
    | none => rw [hl] at heq; simp at heq; exact hnd (heq ▸ hh)
    | some v =>
      rw [hl] at heq
      simp only [Option.getD_some] at heq
      subst heq
      rcases mem_col_map (lookupLast_eq_some hl) with
        ⟨hv, _⟩ | ⟨hv, _⟩ | ⟨hv, hdch⟩ | ⟨hv, _⟩
      · exact absurd hv (by decide)
      · exact absurd hv (by decide)
      · rw [hdc] at hdch
        have hh0 : h0 = h := by simpa using hdch
        rw [← hh0, hlk] at hl
        simp at hl
      · exact absurd hv (by decide)
  exact ⟨hdc, hbc, hlk, hnr, loadTable_none_of_no_dicount hnr⟩

/-- C10 witness: the sheet whose sole header is "Discount Band" is skipped:
the band rule overwrites the discount fallback for that header. -/
theorem C10_band_overwrites_disc_witness :
    lookupLast (col_map (tabBand.headers.map normHeader)) "discount band" =
      some "discount_band" ∧
    loadTable "S" tabBand = none := by
  have h := C10_band_overwrites_disc "S" tabBand "discount band"
    (by decide) (by decide) (by decide) (by decide) (by decide) (by decide) (by decide)
  exact ⟨h.2.2.1, h.2.2.2.2⟩

/-- C4: on a collection of records whose band labels are strings (or null)
and whose discounts are numeric, if some record has a non-null band, the
top-band KPI selects the lexicographically greatest distinct band label and
returns the arithmetic mean of `dicount` over exactly the records with that
band; if no record has a non-null band, the metric is unavailable. -/
theorem C4_top_band_average (df : List DiscountRecord)
    (hWF : ∀ r ∈ df, r.discount_band = Cell.null ∨ ∃ s, r.discount_band = Cell.str s)
    (hNum : ∀ r ∈ df, ∃ q, r.dicount = Cell.num q) :
    ((∃ r ∈ df, r.discount_band ≠ Cell.null) →
      ∃ b, top_band df = some b ∧
        (∃ r ∈ df, r.discount_band = Cell.str b) ∧
        (∀ s, (∃ r ∈ df, r.discount_band = Cell.str s) → strLe s b = true) ∧
        top_band_avg df =
          some ((dicountVals (top_band_df df b)).sum /
            ((top_band_df df b).length : Rat))) ∧
    ((∀ r ∈ df, r.discount_band = Cell.null) → top_band_avg df = none) := by
  constructor
  · rintro ⟨r0, hr0, hb0⟩
    obtain ⟨s0, hs0⟩ : ∃ s, r0.discount_band = Cell.str s := by
      rcases hWF r0 hr0 with h | h
      · exact absurd h hb0
      · exact h
    have hne : dropna_unique_bands df ≠ [] := by
      intro hnil
      have hm : s0 ∈ dropna_unique_bands df := mem_dropna_unique_bands.mpr ⟨r0, hr0, hs0⟩
      rw [hnil] at hm
      simp at hm
    rcases getLast?_sortStrings_max (dropna_unique_bands df) hne with ⟨m, hlast, hmemm, hmax⟩
    have htop : top_band df = some m := by rw [top_band]; exact hlast
    refine ⟨m, htop, mem_dropna_unique_bands.mp hmemm, ?_, ?_⟩
    · intro s hsrec
      exact hmax s (mem_dropna_unique_bands.mpr hsrec)
    · rw [top_band_avg, htop]
      show colMean ((top_band_df df m).map (fun r => r.dicount)) = _
      have hvals : ((top_band_df df m).map (fun r => r.dicount)).filterMap Cell.toNumeric =
          dicountVals (top_band_df df m) := by
        rw [List.filterMap_map]; rfl
      have hNumtb : ∀ r ∈ top_band_df df m, ∃ q, r.dicount = Cell.num q := by
        intro r hr
        exact hNum r (List.mem_filter.mp hr).1
      have hlen : (dicountVals (top_band_df df m)).length = (top_band_df df m).length :=
        dicountVals_length hNumtb
      have htbne : top_band_df df m ≠ [] := by
        rcases mem_dropna_unique_bands.mp hmemm with ⟨r1, hr1, hb1⟩
        intro hnil
        have : r1 ∈ top_band_df df m :=
          List.mem_filter.mpr ⟨hr1, by rw [hb1]; simp⟩
        rw [hnil] at this
        simp at this
      have hvne : dicountVals (top_band_df df m) ≠ [] := by
        intro hnil
        rw [hnil] at hlen
        exact htbne (List.eq_nil_of_length_eq_zero hlen.symm)
      rw [colMean_eq, hvals, if_neg (by simpa [List.isEmpty_iff] using hvne), hlen]
  · intro hall
    have hnil : dropna_unique_bands df = [] := by
      rw [dropna_unique_bands]
      have hfm : df.filterMap (fun r => r.discount_band.asStr) = [] := by
        rw [List.filterMap_eq_nil_iff]
        intro r hr
        rw [hall r hr]
        rfl
      rw [hfm]
      rfl
    have htn : top_band df = none := by rw [top_band, hnil]; rfl
    rw [top_band_avg, htn]

/-- C4 witness: the specification's scenario with bands A, B, C and
discounts 0.1, 0.2, 0.3 selects band C and returns 0.3. -/
theorem C4_top_band_average_witness :
    (∃ b, top_band exBands = some b ∧
        (∃ r ∈ exBands, r.discount_band = Cell.str b) ∧
        (∀ s, (∃ r ∈ exBands, r.discount_band = Cell.str s) → strLe s b = true) ∧
        top_band_avg exBands =
          some ((dicountVals (top_band_df exBands b)).sum /
            ((top_band_df exBands b).length : Rat))) ∧
    top_band exBands = some "C" ∧ top_band_avg exBands = some (3/10) := by
  refine ⟨(C4_top_band_average exBands ?_ ?_).1 ?_, by decide, ?_⟩
  · intro r hr
    simp only [exBands, List.mem_cons, List.not_mem_nil, or_false] at hr
    rcases hr with rfl | rfl | rfl <;> right <;> exact ⟨_, rfl⟩
  · intro r hr
    simp only [exBands, List.mem_cons, List.not_mem_nil, or_false] at hr
    rcases hr with rfl | rfl | rfl <;> exact ⟨_, rfl⟩
  · decide
  · simp [top_band_avg, top_band, top_band_df, colMean, dropna_unique_bands, uniqueStrs,
      sortStrings, exBands, Cell.toNumeric, Cell.asStr, List.insertionSort,
      List.orderedInsert, strLe, charListLe]

theorem map_fst_pairs {α β : Type} (l : List α) (f : α → β) :
    (l.map (fun b => (b, f b))).map Prod.fst = l := by
  induction l with
  | nil => rfl
  | cons a l ih => simp [ih]

theorem map_snd_pairs {α β : Type} (l : List α) (f : α → β) :
    (l.map (fun b => (b, f b))).map Prod.snd = l.map f := by
  induction l with
  | nil => rfl
  | cons a l ih => simp [ih]

/-- C5: on a collection of records whose band labels are strings (or null),
if some record has a non-null band, the histogram has one row per distinct
band (null excluded, counts by band), rows sorted ascending by label, plus
a final "Total" row counting all records with a non-null band; with no
non-null band, "no band data" is reported instead. -/
theorem C5_histogram (df : List DiscountRecord)
    (hWF : ∀ r ∈ df, r.discount_band = Cell.null ∨ ∃ s, r.discount_band = Cell.str s) :
    ((∃ r ∈ df, r.discount_band ≠ Cell.null) →
      chart_with_total df =
        some (chart_data df ++
          [("Total", (df.filter (fun r => r.discount_band.notna)).length)]) ∧
      ((chart_data df).map Prod.fst).Nodup ∧
      List.Sorted (fun a b => strLe a b = true) ((chart_data df).map Prod.fst) ∧
      (∀ b nn, (b, nn) ∈ chart_data df ↔
        ((∃ r ∈ df, r.discount_band = Cell.str b) ∧
          nn = (top_band_df df b).length))) ∧
    ((∀ r ∈ df, r.discount_band = Cell.null) → chart_with_total df = none) := by
  constructor
  · rintro ⟨r0, hr0, hb0⟩
    obtain ⟨s0, hs0⟩ : ∃ s, r0.discount_band = Cell.str s := by
      rcases hWF r0 hr0 with h | h
      · exact absurd h hb0
      · exact h
    have hguard : (df.map (fun r => r.discount_band)).any Cell.notna = true := by
      rw [List.any_eq_true]
      exact ⟨Cell.str s0, List.mem_map.mpr ⟨r0, hr0, hs0⟩, rfl⟩
    have hkeys : (chart_data df).map Prod.fst = sortStrings (dropna_unique_bands df) := by
      rw [chart_data, map_fst_pairs]
    have hmemkeys : ∀ a, a ∈ sortStrings (dropna_unique_bands df) ↔
        a ∈ df.filterMap (fun r => r.discount_band.asStr) := by
      intro a
      rw [(sortStrings_perm _).mem_iff, dropna_unique_bands, mem_uniqueStrs]
    have hnodupkeys : (sortStrings (dropna_unique_bands df)).Nodup :=
      ((sortStrings_perm _).nodup_iff).mpr (nodup_uniqueStrs _)
    have hsum : ((chart_data df).map Prod.snd).sum =
        (df.filter (fun r => r.discount_band.notna)).length := by
      rw [chart_data, map_snd_pairs]
      have hcomp : ((sortStrings (dropna_unique_bands df)).map
          (fun b => (top_band_df df b).length)) =
          ((sortStrings (dropna_unique_bands df)).map
            (fun b => (df.filterMap (fun r => r.discount_band.asStr)).count b)) :=
        List.map_congr_left (fun b _ => count_labels df b)
      rw [hcomp, sum_counts hnodupkeys hmemkeys, length_filter_notna hWF]
    refine ⟨?_, ?_, ?_, ?_⟩
    · rw [chart_with_total, if_pos hguard, hsum]
    · rw [hkeys]; exact hnodupkeys
    · rw [hkeys]; exact sortStrings_sorted _
    · intro b nn
      rw [chart_data, List.mem_map]
      constructor
      · rintro ⟨b2, hb2, heq⟩
        have hfst : b2 = b := congrArg Prod.fst heq
        have hsnd : (top_band_df df b2).length = nn := congrArg Prod.snd heq
        subst hfst
        exact ⟨mem_dropna_unique_bands.mp ((sortStrings_perm _).mem_iff.mp hb2), hsnd.symm⟩
      · rintro ⟨hex, rfl⟩
        exact ⟨b, (sortStrings_perm _).mem_iff.mpr (mem_dropna_unique_bands.mpr hex), rfl⟩
  · intro hall
    have hguard : (df.map (fun r => r.discount_band)).any Cell.notna = false := by
      rw [List.any_eq_false]
      intro c hc
      rcases List.mem_map.mp hc with ⟨r, hr, rfl⟩
      rw [hall r hr]
      simp [Cell.notna]
    rw [chart_with_total]
    simp [hguard]

/-- C5 witness: the histogram of the A/B/C example is the three unit rows
plus a "Total" row counting 3. -/
theorem C5_histogram_witness :
    chart_with_total exBands =
      some (chart_data exBands ++
        [("Total", (exBands.filter (fun r => r.discount_band.notna)).length)]) ∧
    chart_with_total exBands = some [("A", 1), ("B", 1), ("C", 1), ("Total", 3)] := by
  refine ⟨((C5_histogram exBands ?_).1 ?_).1, by decide⟩
  · intro r hr
    simp only [exBands, List.mem_cons, List.not_mem_nil, or_false] at hr
    rcases hr with rfl | rfl | rfl <;> right <;> exact ⟨_, rfl⟩
  · decide

/-- C7 counterexample: on a collection where one record of the selected
insurer has a null `chi_location` and another has "X", filtering with the
empty set differs from filtering with the set of all distinct non-null
location values (the null record survives the former, not the latter). -/
theorem C7_counterexample :
    ¬ (filtered exNull "A" [] [] =
        filtered exNull "A" (chi_loc_options (df_ins exNull "A")) []) := by decide

/-- C7 (amended): an empty accepted-set is equivalent to no restriction on
that dimension; it is moreover equivalent to filtering with the set of all
distinct non-null values of the dimension when every record of the selected
insurer has a non-null (string) value there. -/
theorem C7_empty_filter_equivalences (df : List DiscountRecord) (ins : String)
    (chis svcs : List String) :
    (∀ r, r ∈ filtered df ins [] svcs ↔
      r ∈ df ∧ r.insurer = ins ∧
      (svcs = [] ∨ ∃ s, r.service_type = Cell.str s ∧ s ∈ svcs)) ∧
    ((∀ r ∈ df_ins df ins, ∃ s, r.chi_location = Cell.str s) →
      filtered df ins (chi_loc_options (df_ins df ins)) svcs = filtered df ins [] svcs) ∧
    ((∀ r ∈ df_ins df ins, ∃ s, r.service_type = Cell.str s) →
      filtered df ins chis (service_options (df_ins df ins)) = filtered df ins chis []) := by
  refine ⟨?_, ?_, ?_⟩
  · intro r
    rw [mem_filtered]
    simp
  · intro hstr
    have hA : ((df_ins df ins).filter
        (fun r => r.chi_location.isin (chi_loc_options (df_ins df ins)))) = df_ins df ins := by
      apply List.filter_eq_self.mpr
      intro r hr
      rcases hstr r hr with ⟨s, hs⟩
      rw [hs]
      simp only [Cell.isin]
      simpa using mem_chi_loc_options.mpr ⟨r, hr, hs⟩
    unfold filtered
    by_cases hopt : (chi_loc_options (df_ins df ins)).isEmpty
    · simp [hopt]
    · simp only [hopt, List.isEmpty_nil, Bool.false_eq_true, if_false, if_true, reduceIte]
      rw [hA]
  · intro hsvc
    have hsub : ∀ r ∈ (if chis.isEmpty then df_ins df ins
        else (df_ins df ins).filter (fun r => r.chi_location.isin chis)), r ∈ df_ins df ins := by
      intro r hr
      by_cases hchi : chis.isEmpty
      · rw [if_pos hchi] at hr; exact hr
      · rw [if_neg hchi] at hr; exact (List.mem_filter.mp hr).1
    have hB : (if chis.isEmpty then df_ins df ins
        else (df_ins df ins).filter (fun r => r.chi_location.isin chis)).filter
          (fun r => r.service_type.isin (service_options (df_ins df ins))) =
        (if chis.isEmpty then df_ins df ins
          else (df_ins df ins).filter (fun r => r.chi_location.isin chis)) := by
      apply List.filter_eq_self.mpr
      intro r hr
      rcases hsvc r (hsub r hr) with ⟨s, hs⟩
      rw [hs]
      simp only [Cell.isin]
      simpa using mem_service_options.mpr ⟨r, hsub r hr, hs⟩
    unfold filtered
    by_cases hopt : (service_options (df_ins df ins)).isEmpty
    · simp [hopt]
    · simp only [hopt, List.isEmpty_nil, Bool.false_eq_true, if_false, if_true, reduceIte]
      rw [hB]

/-- C7 witness: on a collection where the selected insurer's records all
have non-null string values in both dimensions, the all-values filters
coincide with the empty ones. -/
theorem C7_empty_filter_equivalences_witness :
    filtered [⟨"A", Cell.str "X", Cell.str "D", Cell.num 1, Cell.null⟩] "A"
        (chi_loc_options (df_ins [⟨"A", Cell.str "X", Cell.str "D", Cell.num 1, Cell.null⟩] "A")) [] =
      filtered [⟨"A", Cell.str "X", Cell.str "D", Cell.num 1, Cell.null⟩] "A" [] [] :=
  (C7_empty_filter_equivalences
      [⟨"A", Cell.str "X", Cell.str "D", Cell.num 1, Cell.null⟩] "A" [] []).2.1
    (by intro r hr; rcases List.mem_singleton.mp hr with rfl; exact ⟨"X", rfl⟩)

theorem find?_unique {α : Type} {p : α → Bool} {l : List α} {a : α}
    (ha : a ∈ l) (hp : p a = true)
    (huniq : ∀ x ∈ l, p x = true → x = a) : l.find? p = some a := by
  cases e : l.find? p with
  | none => exact absurd hp (by simpa using List.find?_eq_none.mp e a ha)
  | some c =>
    rw [huniq c (List.mem_of_find?_eq_some e) (List.find?_some e)]

/-- C8: reconciling a table whose (normalized) headers are exactly the four
canonical names, in any order, produces the identity mapping, so loading
changes no column assignment. -/
theorem C8_reconcile_idempotent (t : RawTable)
    (h : (t.headers.map normHeader).Perm canonicalHeaders) :
    (∀ hd ∈ t.headers.map normHeader,
      lookupLast (col_map (t.headers.map normHeader)) hd = some hd) ∧
    renamedCols (t.headers.map normHeader) = t.headers.map normHeader := by
  have hmem : ∀ x, x ∈ t.headers.map normHeader ↔ x ∈ canonicalHeaders :=
    fun x => h.mem_iff
  have hchi : chi_loc_col (t.headers.map normHeader) = some "chi_location" := by
    rw [chi_loc_col, find_first_contains, find_first_contains]
    have h1 : (t.headers.map normHeader).find?
        (fun c => ["chilocation"].all (fun k => strContains c k)) = none := by
      rw [List.find?_eq_none]
      intro x hx
      have := (hmem x).mp hx
      simp only [canonicalHeaders, List.mem_cons, List.not_mem_nil, or_false] at this
      rcases this with rfl | rfl | rfl | rfl <;> decide
    rw [h1]
    refine find?_unique ((hmem _).mpr (by decide)) (by decide) ?_
    intro x hx hp
    have := (hmem x).mp hx
    simp only [canonicalHeaders, List.mem_cons, List.not_mem_nil, or_false] at this
    rcases this with rfl | rfl | rfl | rfl <;> first | rfl | exact absurd hp (by decide)
  have hsvc : svc_col (t.headers.map normHeader) = some "service_type" := by
    rw [svc_col, find_first_contains, find_first_contains]
    have h1 : (t.headers.map normHeader).find?
        (fun c => ["servicetype"].all (fun k => strContains c k)) = none := by
      rw [List.find?_eq_none]
      intro x hx
      have := (hmem x).mp hx
      simp only [canonicalHeaders, List.mem_cons, List.not_mem_nil, or_false] at this
      rcases this with rfl | rfl | rfl | rfl <;> decide
    rw [h1]
    refine find?_unique ((hmem _).mpr (by decide)) (by decide) ?_
    intro x hx hp
    have := (hmem x).mp hx
    simp only [canonicalHeaders, List.mem_cons, List.not_mem_nil, or_false] at this
    rcases this with rfl | rfl | rfl | rfl <;> first | rfl | exact absurd hp (by decide)
  have hdsc : disc_col (t.headers.map normHeader) = some "dicount" := by
    rw [disc_col, if_pos]
    simpa using (hmem "dicount").mpr (by decide)
  have hbnd : band_col (t.headers.map normHeader) = some "discount_band" := by
    rw [band_col, find_first_contains]
    refine find?_unique ((hmem _).mpr (by decide)) (by decide) ?_
    intro x hx hp
    have := (hmem x).mp hx
    simp only [canonicalHeaders, List.mem_cons, List.not_mem_nil, or_false] at this
    rcases this with rfl | rfl | rfl | rfl <;> first | rfl | exact absurd hp (by decide)
  have hmap : col_map (t.headers.map normHeader) =
      [("chi_location", "chi_location"), ("service_type", "service_type"),
       ("dicount", "dicount"), ("discount_band", "discount_band")] := by
    rw [col_map, hchi, hsvc, hdsc, hbnd]
    rfl
  have hlk : ∀ hd ∈ t.headers.map normHeader,
      lookupLast (col_map (t.headers.map normHeader)) hd = some hd := by
    intro hd hx
    have := (hmem hd).mp hx
    simp only [canonicalHeaders, List.mem_cons, List.not_mem_nil, or_false] at this
    rw [hmap]
    rcases this with rfl | rfl | rfl | rfl <;> decide
  refine ⟨hlk, ?_⟩
  have : ∀ hd ∈ t.headers.map normHeader, renameHeader (t.headers.map normHeader) hd = hd := by
    intro hd hx
    rw [renameHeader, hlk hd hx]
    rfl
  rw [renamedCols, List.map_congr_left this]
  simp

/-- C8 witness: the table whose headers are the canonical names in order is
renamed to itself. -/
theorem C8_reconcile_idempotent_witness :
    renamedCols ((⟨canonicalHeaders, [[Cell.num 1]]⟩ : RawTable).headers.map normHeader) =
      (⟨canonicalHeaders, [[Cell.num 1]]⟩ : RawTable).headers.map normHeader :=
  (C8_reconcile_idempotent ⟨canonicalHeaders, [[Cell.num 1]]⟩
    (by rw [show (⟨canonicalHeaders, [[Cell.num 1]]⟩ : RawTable).headers.map normHeader =
        canonicalHeaders by decide])).2

end Clinic
